import Mathlib

/-!
Verification of the ignore-pattern matching and file-classification core of
`pew` (main.go).  Strings are modelled as `List Char` (the program only ever
compares bytes; on ASCII inputs Go's byte-wise operations and the char-wise
operations used here coincide).  `filepath.ToSlash` is the identity on the
Unix build modelled here (`filepath.Separator = '/'`), so it is omitted.
Filesystem effects (`os.Stat`, `os.Open`, `filepath.Walk`) are made explicit:
the result of a stat becomes a boolean parameter, the result of reading a
file becomes an `Option (List Nat)` (`none` = the open/read failed), and a
directory tree becomes an inductive value.
-/

set_option maxRecDepth 8000

namespace Pew

/-! ### Model of Go `path/filepath.Match` (Unix separator `'/'`)

Faithful translation of `scanChunk`, `matchChunk`, `getEsc` and `Match` from
Go's `path/filepath/match.go` (the modern version with the `failed` flag in
`matchChunk`).  `matchChunkF`, `parseClassF`, `goMatchF` and `starLoopF`
carry a fuel argument only to make the recursion structurally obvious; every
iteration of the corresponding Go loop consumes at least one character of the
component the fuel is derived from, so the fuel supplied at the call sites
(`length + 1`) is never exhausted. -/

/-- Go `getEsc`: read one (possibly `\`-escaped) character of a character
class.  `none` models `ErrBadPattern` (empty chunk, bare `-` or `]`,
trailing `\`, or the class running past the end of the pattern). -/
def getEsc : List Char → Option (Char × List Char)
  | [] => none
  | c :: rest =>
    if c = '-' || c = ']' then none
    else if c = '\\' then
      match rest with
      | [] => none
      | d :: rest2 => if rest2 = [] then none else some (d, rest2)
    else if rest = [] then none else some (c, rest)

/-- The range-parsing loop inside the `'['` case of Go `matchChunk`.
`r` is the rune being tested, `canClose` is Go's `nrange > 0`, `acc` is the
running `match` flag.  Returns the accumulated flag and the chunk remainder,
or `none` for `ErrBadPattern`. -/
def parseClassF : Nat → Char → Bool → Bool → List Char → Option (Bool × List Char)
  | 0, _, _, _, _ => none
  | fuel + 1, r, canClose, acc, chunk =>
    if chunk.head? == some ']' && canClose then some (acc, chunk.tail)
    else
      match getEsc chunk with
      | none => none
      | some (lo, ch1) =>
        match ch1 with
        | '-' :: ch1' =>
          match getEsc ch1' with
          | none => none
          | some (hi, ch2) =>
            parseClassF fuel r true (acc || (decide (lo ≤ r) && decide (r ≤ hi))) ch2
        | _ => parseClassF fuel r true (acc || (decide (lo ≤ r) && decide (r ≤ lo))) ch1

/-- Go `matchChunk chunk s` with its `failed` flag.  Result:
`none` = `ErrBadPattern`; `some none` = no match (`ok = false`, no error);
`some (some t)` = the chunk matched a prefix of `s` leaving remainder `t`. -/
def matchChunkF : Nat → List Char → List Char → Bool → Option (Option (List Char))
  | 0, _, _, _ => none
  | fuel + 1, chunk, s, failed0 =>
    match chunk with
    | [] => if failed0 then some none else some (some s)
    | c :: rest =>
      let failed := failed0 || s.isEmpty
      if c = '[' then
        let r := if failed then Char.ofNat 0 else s.headD (Char.ofNat 0)
        let s1 := if failed then s else s.tail
        let negd := rest.head? == some '^'
        let rest1 := if negd then rest.tail else rest
        match parseClassF (rest1.length + 1) r false false rest1 with
        | none => none
        | some (cm, rest2) => matchChunkF fuel rest2 s1 (failed || (cm == negd))
      else if c = '?' then
        if failed then matchChunkF fuel rest s true
        else
          match s with
          | [] => matchChunkF fuel rest [] true
          | e :: s' => matchChunkF fuel rest s' (e == '/')
      else if c = '\\' then
        match rest with
        | [] => none
        | d :: rest2 =>
          if failed then matchChunkF fuel rest2 s true
          else
            match s with
            | [] => matchChunkF fuel rest2 [] true
            | e :: s' => matchChunkF fuel rest2 s' (!(d == e))
      else
        if failed then matchChunkF fuel rest s true
        else
          match s with
          | [] => matchChunkF fuel rest [] true
          | e :: s' => matchChunkF fuel rest s' (!(c == e))

/-- The leading-`*` stripping loop of Go `scanChunk`. -/
def stripStars : List Char → Bool × List Char
  | [] => (false, [])
  | c :: rest => if c = '*' then (true, (stripStars rest).2) else (false, c :: rest)

/-- The scan loop of Go `scanChunk`: split off the chunk before the next
unbracketed, unescaped `*` (the switch on `pattern[i]`: a `\` also consumes
the following character, `[`/`]` toggle the in-range flag, a `*` stops the
scan only outside a range). -/
def chunkScan (inrange : Bool) : List Char → List Char × List Char
  | [] => ([], [])
  | c :: rest =>
    if c = '\\' then
      match rest with
      | [] => (['\\'], [])
      | d :: rest2 =>
        let p := chunkScan inrange rest2
        ('\\' :: d :: p.1, p.2)
    else if c = '[' then
      let p := chunkScan true rest
      (c :: p.1, p.2)
    else if c = ']' then
      let p := chunkScan false rest
      (c :: p.1, p.2)
    else if c = '*' then
      if inrange then
        let p := chunkScan inrange rest
        (c :: p.1, p.2)
      else ([], c :: rest)
    else
      let p := chunkScan inrange rest
      (c :: p.1, p.2)

/-- Go `scanChunk pattern = (star, chunk, rest)`. -/
def scanChunk (pattern : List Char) : Bool × List Char × List Char :=
  let sp := stripStars pattern
  let cr := chunkScan false sp.2
  (sp.1, cr.1, cr.2)

mutual

/-- The `Pattern:` loop of Go `Match`.  `none` models a returned
`ErrBadPattern` (the caller in main.go discards it: `matched, _ :=`). -/
def goMatchF : Nat → List Char → List Char → Option Bool
  | 0, _, _ => none
  | fuel + 1, pattern, name =>
    match pattern with
    | [] => some name.isEmpty
    | _ :: _ =>
      let scr := scanChunk pattern
      let star := scr.1
      let chunk := scr.2.1
      let rest := scr.2.2
      if star && chunk.isEmpty then some (!name.contains '/')
      else
        match matchChunkF (chunk.length + 1) chunk name false with
        | none => none
        | some (some t) =>
          if t.isEmpty || !rest.isEmpty then goMatchF fuel rest t
          else if star then starLoopF fuel chunk rest name
          else some false
        | some none =>
          if star then starLoopF fuel chunk rest name
          else some false

/-- The `if star` sliding loop of Go `Match`: retry the chunk at each later
position of `name`, never skipping past a `'/'`. -/
def starLoopF : Nat → List Char → List Char → List Char → Option Bool
  | 0, _, _, _ => none
  | fuel + 1, chunk, rest, name =>
    match name with
    | [] => some false
    | c :: tail =>
      if c = '/' then some false
      else
        match matchChunkF (chunk.length + 1) chunk tail false with
        | none => none
        | some (some t) =>
          if rest.isEmpty && !t.isEmpty then starLoopF fuel chunk rest tail
          else goMatchF fuel rest t
        | some none => starLoopF fuel chunk rest tail

end

/-- Go `filepath.Match pattern name` (Unix).  The initial fuel bounds the
total number of loop iterations: each `Pattern:` iteration consumes at least
one pattern character and each sliding-loop iteration consumes one name
character. -/
def goMatch (pattern name : List Char) : Option Bool :=
  goMatchF (pattern.length + name.length + 1) pattern name

/-! ### The gitignore-style matcher (`matchesGitIgnorePattern` in main.go) -/

/-- Go `strings.Split s (String.singleton sep)` for a one-character
separator, written with an accumulator for the current field. -/
def splitSeg (sep : Char) : List Char → List Char → List (List Char)
  | [], acc => [acc.reverse]
  | c :: rest, acc =>
    if c = sep then acc.reverse :: splitSeg sep rest [] else splitSeg sep rest (c :: acc)

/-- `strings.Split path "/"` as used on the relative path. -/
def splitSlash (path : List Char) : List (List Char) :=
  splitSeg '/' path []

/-- Go `filepath.Base` (Unix): empty path gives `"."`, trailing slashes are
stripped, then everything up to the last `'/'` is dropped; an all-slash path
gives `"/"`. -/
def goBase (path : List Char) : List Char :=
  if path = [] then ['.']
  else
    let t := (path.reverse.dropWhile (· = '/')).reverse
    if t = [] then ['/']
    else (t.reverse.takeWhile (· ≠ '/')).reverse

/-- The wildcard translation in the `strings.Contains(pattern, "*")` branch
of `matchesGitIgnorePattern`: the three sequential `strings.ReplaceAll`
passes (`"." ↦ "\\."`, then `"*" ↦ ".*"`, then `"?" ↦ "."`) rewrite disjoint
characters of the original pattern and never rescan their own output, so
their composition is this single character-wise expansion; then `"^"` is
prepended unless the pattern starts with `*` and `"$"` is appended unless the
pattern ends with `*`. -/
def globTranslate (pat : List Char) : List Char :=
  let core := pat.flatMap fun c =>
    if c = '.' then ['\\', '.']
    else if c = '*' then ['.', '*']
    else if c = '?' then ['.']
    else [c]
  let withCaret := if pat.head? == some '*' then core else '^' :: core
  if pat.getLast? == some '*' then withCaret else withCaret ++ ['$']

/-- The body of the wildcard branch: build the translated expression, test
the full path with `filepath.Match`, and if that fails test every
`/`-separated segment; match errors are discarded (`matched, _ :=`). -/
def wildcardMatch (path pat : List Char) : Bool :=
  let glob := globTranslate pat
  (goMatch glob path).getD false ||
    (splitSlash path).any fun part => (goMatch glob part).getD false

/-- Go `matchesGitIgnorePattern path pattern`.  The `isDirectory(path)` stat
made by the source is the explicit `statIsDir` parameter here (the source
stats the relative path against the process working directory; the model
takes the stat's outcome as an input).  `filepath.ToSlash` is the identity
on Unix and is omitted. -/
def matchesGitIgnorePattern (path : List Char) (statIsDir : Bool) (patternRaw : List Char) : Bool :=
  let isDirOnly := patternRaw.getLast? == some '/'
  let pat := if isDirOnly then patternRaw.dropLast else patternRaw
  let isDir := (path.getLast? == some '/') || statIsDir
  if isDirOnly && !isDir then false
  else if pat.contains '*' then wildcardMatch path pat
  else pat == goBase path || pat == path || (goMatch pat path).getD false

/-- Go `isPathIgnored` after the relative-path computation: try the patterns
in order, short-circuiting on the first match (the `len(patterns) == 0`
early return coincides with the empty-list case). -/
def isPathIgnored (relPath : List Char) (statIsDir : Bool) : List (List Char) → Bool
  | [] => false
  | p :: rest =>
    if matchesGitIgnorePattern relPath statIsDir p then true
    else isPathIgnored relPath statIsDir rest

/-- Spec-side description of matching a pattern that contains no glob
metacharacter at all: consume the pattern literally and return the remainder
of the name, `none` on a mismatch.  Used to characterise `goMatch` on
metacharacter-free patterns. -/
def litMatch : List Char → List Char → Option (List Char)
  | [], s => some s
  | c :: q, s =>
    match s with
    | [] => none
    | d :: s' => if c = d then litMatch q s' else none

/-! ### Content classifier (`isBinaryContent`, `verifyTextContent`,
`isTextFile` in main.go).  File bytes are `List Nat`. -/

/-- The `binarySignatures` table of main.go. -/
def binarySignatures : List (List Nat) :=
  [[0x7F, 0x45, 0x4C, 0x46],
   [0x4D, 0x5A],
   [0x50, 0x4B, 0x03, 0x04],
   [0xFF, 0xD8, 0xFF],
   [0x89, 0x50, 0x4E, 0x47],
   [0x25, 0x50, 0x44, 0x46],
   [0x1F, 0x8B]]

/-- The per-signature test of `isBinaryContent`: `len(sig) <= len(content)`
and element-wise equality of the leading bytes, i.e. the signature is a
prefix of the content. -/
def sigMatches : List Nat → List Nat → Bool
  | [], _ => true
  | _ :: _, [] => false
  | a :: sig, b :: content => a == b && sigMatches sig content

/-- The counting loop of `isBinaryContent`: count zero bytes (returning
binary as soon as a second one is seen) and bytes above 127, then apply the
30% rule over `total` (the number of bytes read).  The source compares
`float64(nonAsciiCount)/float64(len(content)) > 0.3`; for the lengths that
reach this code (at most 512 bytes) that IEEE-double comparison holds
exactly when `10 * nonAsciiCount > 3 * total`, because no fraction `a/b`
with `b ≤ 512` lies between the double nearest `0.3` and `3/10`. -/
def nullScan : List Nat → Nat → Nat → Nat → Bool
  | [], _, nonAsciiCount, total =>
    if 0 < total then decide (3 * total < 10 * nonAsciiCount) else false
  | b :: rest, nullCount, nonAsciiCount, total =>
    if b = 0 then
      if 1 < nullCount + 1 then true
      else nullScan rest (nullCount + 1) nonAsciiCount total
    else if 127 < b then nullScan rest nullCount (nonAsciiCount + 1) total
    else nullScan rest nullCount nonAsciiCount total

/-- Go `isBinaryContent content`. -/
def isBinaryContent (content : List Nat) : Bool :=
  if 2 ≤ content.length && binarySignatures.any (fun sig => sigMatches sig content) then true
  else nullScan content 0 0 content.length

/-- Spec-side reading of the signature rule: the content begins with one of
the seven signatures. -/
def hasBinarySignature (b : List Nat) : Bool :=
  binarySignatures.any fun sig => sigMatches sig b

/-- Number of zero bytes in the content. -/
def countZeroBytes (b : List Nat) : Nat :=
  b.countP fun x => x == 0

/-- Number of bytes with value greater than 127 in the content. -/
def countHighBytes (b : List Nat) : Nat :=
  b.countP fun x => decide (127 < x)

/-- The `textExtensions` table of main.go. -/
def textExtensions : List (List Char) :=
  [".txt".toList, ".md".toList, ".go".toList, ".py".toList, ".js".toList,
   ".html".toList, ".css".toList, ".json".toList, ".xml".toList, ".yaml".toList,
   ".yml".toList, ".sh".toList, ".bash".toList, ".c".toList, ".cpp".toList,
   ".h".toList, ".hpp".toList, ".rs".toList, ".ts".toList, ".java".toList,
   ".rb".toList, ".php".toList, ".pl".toList, ".swift".toList, ".kt".toList,
   ".sql".toList, ".r".toList, ".conf".toList, ".ini".toList, ".csv".toList,
   ".tsv".toList, ".bat".toList, ".ps1".toList, ".lua".toList]

/-- Scan of the reversed path for Go `filepath.Ext`: walk right-to-left,
stop at a `'/'` (no extension) or at a `'.'` (extension starts there). -/
def extAux : List Char → List Char → List Char
  | [], _ => []
  | c :: rest, acc =>
    if c = '/' then []
    else if c = '.' then '.' :: acc
    else extAux rest (c :: acc)

/-- Go `filepath.Ext` (Unix). -/
def goExt (path : List Char) : List Char :=
  extAux path.reverse []

/-- Go `strings.ToLower` (character-wise; coincides on ASCII). -/
def goToLower (l : List Char) : List Char :=
  l.map Char.toLower

/-- Go `verifyTextContent path`.  `readResult` is the outcome of
`os.Open` + `Read` of the leading bytes: `none` when the open or read
fails (the function then returns an error), `some bytes` for the bytes of
the file, of which at most 512 are read into the buffer. -/
def verifyTextContent (readResult : Option (List Nat)) : Option Bool :=
  match readResult with
  | none => none
  | some bytes => some (!isBinaryContent (bytes.take 512))

/-- Go `isTextFile path`: look the lowercased extension up in
`textExtensions` and then — in both branches — defer to
`verifyTextContent`. -/
def isTextFile (path : List Char) (readResult : Option (List Nat)) : Option Bool :=
  let ext := goToLower (goExt path)
  if textExtensions.contains ext then verifyTextContent readResult
  else verifyTextContent readResult

/-! ### Ignore-set resolver (`getIgnorePatterns`, `readPewcFile`). -/

/-- The `defaultIgnorePatterns` table of main.go, in source order. -/
def defaultIgnorePatterns : List (List Char) :=
  [".*".toList, "node_modules/".toList, "target/".toList, "dist/".toList,
   "build/".toList, "bin/".toList, "pkg/".toList, ".pewc".toList, ".git/".toList]

/-- Go `unicode.IsSpace`, the character set trimmed by
`strings.TrimSpace`. -/
def isGoSpace (c : Char) : Bool :=
  c = ' ' || c = '\t' || c = '\n' || c.toNat = 11 || c.toNat = 12 || c = '\r' ||
  c.toNat = 0x85 || c.toNat = 0xA0 || c.toNat = 0x1680 ||
  (0x2000 ≤ c.toNat && c.toNat ≤ 0x200A) ||
  c.toNat = 0x2028 || c.toNat = 0x2029 || c.toNat = 0x202F ||
  c.toNat = 0x205F || c.toNat = 0x3000

/-- Go `strings.TrimSpace`. -/
def goTrimSpace (l : List Char) : List Char :=
  ((l.dropWhile isGoSpace).reverse.dropWhile isGoSpace).reverse

/-- `strings.Split content "\n")` of the `.pewc` text. -/
def splitLines (content : List Char) : List (List Char) :=
  splitSeg '\n' content []

/-- The line loop of `readPewcFile`: trim each line, skip empty lines and
lines starting with `#`, keep the rest in order. -/
def parsePewcLines : List (List Char) → List (List Char)
  | [] => []
  | line :: rest =>
    let l := goTrimSpace line
    if l.isEmpty || l.head? == some '#' then parsePewcLines rest
    else l :: parsePewcLines rest

/-- Outcome of `os.ReadFile(rootDir/.pewc)`: the file is absent
(`os.IsNotExist`), present with some text, or present but unreadable. -/
inductive PewcFile where
  | absent
  | present (content : List Char)
  | unreadable

/-- Go `readPewcFile`: an absent file is no error and contributes nothing;
any other read error aborts; otherwise the parsed lines are returned.
`none` models the returned error. -/
def readPewcFile : PewcFile → Option (List (List Char))
  | .absent => some []
  | .unreadable => none
  | .present content => some (parsePewcLines (splitLines content))

/-- Go `getIgnorePatterns rootDir noDefaultIgnores`: the defaults (unless
disabled) followed by the `.pewc` patterns. -/
def getIgnorePatterns (noDefaultIgnores : Bool) (f : PewcFile) : Option (List (List Char)) :=
  match readPewcFile f with
  | none => none
  | some pewcPatterns =>
    some ((if noDefaultIgnores then [] else defaultIgnorePatterns) ++ pewcPatterns)

/-! ### Directory walker (`collectTextFiles`).

A directory tree is a value of `FsEntry`; a file's `readResult` is the
outcome of opening and reading it for classification (`none` = the open or
read fails, which is the per-file error case of `isTextFile`), a directory's
`readable` flag is the outcome of `readDirNames` (`false` = the listing
fails, the error `filepath.Walk` hands to the callback).  Children are
listed in the sorted order `readDirNames` produces.  Paths are kept relative
to the root (`filepath.Rel(rootDir, path)` of the absolute path the walk
visits; `"."` at the root itself), and the stat `isDirectory(relPath)` made
by the matcher is answered from the tree (the run with the working directory
at the root).  `Except.error ()` models `collectTextFiles` returning an
error. -/

inductive FsEntry where
  | file (name : List Char) (readResult : Option (List Nat))
  | dir (name : List Char) (readable : Bool) (children : List FsEntry)

/-- The name of an entry. -/
def FsEntry.name : FsEntry → List Char
  | .file n _ => n
  | .dir n _ _ => n

/-- `filepath.Rel` of a child of the directory whose relative path is
`rel`: `name` at the root (`rel = "."`), `rel ++ "/" ++ name` below. -/
def joinRel (rel name : List Char) : List Char :=
  if rel = ['.'] then name else rel ++ '/' :: name

/-- Byte-wise string order, as used by `sort.Strings`. -/
def lexLe : List Char → List Char → Bool
  | [], _ => true
  | _ :: _, [] => false
  | a :: as, b :: bs => if a = b then lexLe as bs else decide (a < b)

/-- Insertion into a `lexLe`-sorted list. -/
def insertStr (x : List Char) : List (List Char) → List (List Char)
  | [] => [x]
  | y :: ys => if lexLe x y then x :: y :: ys else y :: insertStr x ys

/-- `sort.Strings` (any correct sort computes the same list, the order
being total). -/
def sortStrs : List (List Char) → List (List Char)
  | [] => []
  | x :: xs => insertStr x (sortStrs xs)

mutual

/-- One `filepath.Walk` visit of the entry whose relative path is `rel`,
with the `collectTextFiles` callback inlined.  For a directory the walk
reads the listing first and hands a listing error to the callback, which
returns it (aborting the whole walk) before the ignore test can prune; an
ignored directory is pruned via `SkipDir`, an ignored file is skipped.  For
a file, a classification error (`isTextFile`, i.e. the open/read of the
leading bytes) is a warning plus skip, binary files are skipped, text files
contribute their path. -/
def walkEntry (pats : List (List Char)) (rel : List Char) : FsEntry → Except Unit (List (List Char))
  | .file _ readResult =>
    if isPathIgnored rel false pats then .ok []
    else
      match readResult with
      | none => .ok []
      | some bytes => if !isBinaryContent (bytes.take 512) then .ok [rel] else .ok []
  | .dir _ readable children =>
    if !readable then .error ()
    else if isPathIgnored rel true pats then .ok []
    else walkList pats rel children

/-- The loop of `walk` over a directory's children: any child error aborts,
otherwise the contributions are concatenated in order. -/
def walkList (pats : List (List Char)) (rel : List Char) : List FsEntry → Except Unit (List (List Char))
  | [] => .ok []
  | c :: rest =>
    match walkEntry pats (joinRel rel c.name) c with
    | .error e => .error e
    | .ok l =>
      match walkList pats rel rest with
      | .error e => .error e
      | .ok ls => .ok (l ++ ls)

end

/-- Go `collectTextFiles rootDir patterns`: walk from the root (relative
path `"."`), then sort the collected paths. -/
def collectTextFiles (pats : List (List Char)) (root : FsEntry) : Except Unit (List (List Char)) :=
  match walkEntry pats ['.'] root with
  | .error e => .error e
  | .ok l => .ok (sortStrs l)

mutual

/-- Spec-side description of the files the traversal should keep: the same
pruning and classification decisions, with no error channel — an unreadable
file is simply not eligible. -/
def eligEntry (pats : List (List Char)) (rel : List Char) : FsEntry → List (List Char)
  | .file _ readResult =>
    if isPathIgnored rel false pats then []
    else
      match readResult with
      | none => []
      | some bytes => if !isBinaryContent (bytes.take 512) then [rel] else []
  | .dir _ readable children =>
    if !readable then []
    else if isPathIgnored rel true pats then []
    else eligList pats rel children

/-- `eligEntry` over a list of children. -/
def eligList (pats : List (List Char)) (rel : List Char) : List FsEntry → List (List Char)
  | [] => []
  | c :: rest => eligEntry pats (joinRel rel c.name) c ++ eligList pats rel rest

end

mutual

/-- Every directory in the tree has a readable listing. -/
def allDirsReadable : FsEntry → Bool
  | .file _ _ => true
  | .dir _ readable children => readable && allDirsList children

/-- `allDirsReadable` over a list of children. -/
def allDirsList : List FsEntry → Bool
  | [] => true
  | c :: rest => allDirsReadable c && allDirsList rest

end

/-- A tree with a readable root whose only failure is a per-file read
failure (used to instantiate the traversal theorem at a concrete input). -/
def sampleTree : FsEntry :=
  .dir "proj".toList true
    [.file "bad.txt".toList none, .file "ok.md".toList (some [104, 105])]

/-! ## Theorems -/

/-! ### General helper lemmas -/

/-- Splitting a list that does not contain the separator yields the single
field consisting of the accumulator followed by the list. -/
theorem splitSeg_no_sep (sep : Char) :
    ∀ (l acc : List Char), sep ∉ l → splitSeg sep l acc = [acc.reverse ++ l]
  | [], acc, _ => by simp [splitSeg]
  | c :: rest, acc, h => by
    have hc : ¬c = sep := fun hc => h (hc ▸ List.mem_cons_self c rest)
    have hr : sep ∉ rest := fun hr => h (List.mem_cons_of_mem c hr)
    have hcs : ¬c = sep → (c = sep) = False := by simp
    simp only [splitSeg, if_neg hc]
    rw [splitSeg_no_sep sep rest (c :: acc) hr]
    simp

/-- `isPathIgnored` is the short-circuiting disjunction over the pattern
list. -/
theorem isPathIgnored_eq_any (rel : List Char) (d : Bool) :
    ∀ pats, isPathIgnored rel d pats = pats.any fun q => matchesGitIgnorePattern rel d q
  | [] => rfl
  | p :: rest => by
    simp only [isPathIgnored, List.any_cons]
    cases h : matchesGitIgnorePattern rel d p <;>
      simp [h, isPathIgnored_eq_any rel d rest]

/-! ### C1 -/

/-- C1: the wildcard pattern `*.log` is claimed to match `a.log`,
`dir/b.log` and `dir/sub/c.log` and to reject `a.logx`.  Evaluating the
matcher shows it rejects all four paths, for either stat outcome: the
wildcard branch builds a regular-expression string (`.*\.log$`) but hands
it to the glob matcher `filepath.Match`, which reads `.`, `^` and `$` as
literal characters, so `*.log` matches no real path at all. -/
theorem c1_code_bug :
    matchesGitIgnorePattern "a.log".toList false "*.log".toList = false ∧
    matchesGitIgnorePattern "a.log".toList true "*.log".toList = false ∧
    matchesGitIgnorePattern "dir/b.log".toList false "*.log".toList = false ∧
    matchesGitIgnorePattern "dir/b.log".toList true "*.log".toList = false ∧
    matchesGitIgnorePattern "dir/sub/c.log".toList false "*.log".toList = false ∧
    matchesGitIgnorePattern "dir/sub/c.log".toList true "*.log".toList = false ∧
    matchesGitIgnorePattern "a.logx".toList false "*.log".toList = false ∧
    matchesGitIgnorePattern "a.logx".toList true "*.log".toList = false := by
  decide

/-! ### C2 -/

/-- C2: the built-in hidden-entry pattern `.*` never matches a
single-segment path whose first character is `.`, whatever the stat says:
its translation `^\..*` is tested as a glob, and a dotted name fails at the
literal `^` immediately. -/
theorem c2_hidden_pattern_never_matches (p : List Char) (d : Bool)
    (hhead : p.head? = some '.') (hsl : '/' ∉ p) :
    matchesGitIgnorePattern p d ".*".toList = false := by
  obtain ⟨ps, rfl⟩ : ∃ ps, p = '.' :: ps := by
    cases p with
    | nil => simp at hhead
    | cons c ps =>
      simp only [List.head?_cons, Option.some.injEq] at hhead
      exact ⟨ps, by rw [hhead]⟩
  show wildcardMatch ('.' :: ps) ['.', '*'] = false
  have hfull : ∀ qs : List Char, goMatch ['^', '\\', '.', '.', '*'] ('.' :: qs) = some false :=
    fun _ => rfl
  show ((goMatch ['^', '\\', '.', '.', '*'] ('.' :: ps)).getD false ||
      (splitSlash ('.' :: ps)).any
        (fun part => (goMatch ['^', '\\', '.', '.', '*'] part).getD false)) = false
  rw [hfull ps]
  have hsplit : splitSlash ('.' :: ps) = ['.' :: ps] := by
    unfold splitSlash
    rw [splitSeg_no_sep '/' ('.' :: ps) [] hsl]
    simp
  rw [hsplit]
  simp [hfull ps]

/-- Witness for C2 at the dotted name `.git`. -/
theorem c2_witness :
    matchesGitIgnorePattern ".git".toList false ".*".toList = false :=
  c2_hidden_pattern_never_matches ".git".toList false (by decide) (by decide)

/-! ### C3 -/

/-- C3 counterexample: the pattern `a?c` contains the wildcard `?`, yet the
matcher does not apply the wildcard procedure to it — the wildcard
procedure (`wildcardMatch`) rejects the path `abc` while the matcher
accepts it, because the branch test is `strings.Contains(pattern, "*")` and
`a?c` falls into the non-wildcard branch, whose final `filepath.Match` call
gives `?` its glob meaning. -/
theorem c3_counterexample :
    "a?c".toList.contains '?' = true ∧
    matchesGitIgnorePattern "abc".toList false "a?c".toList = true ∧
    wildcardMatch "abc".toList "a?c".toList = false := by
  decide

/-- C3 amended: the wildcard procedure is applied exactly to the patterns
whose slash-trimmed text contains `*`; for those, the matcher returns false
when the directory-only gate fires and the wildcard procedure's verdict
otherwise. -/
theorem c3_amended (path : List Char) (d : Bool) (praw : List Char)
    (h : (if praw.getLast? == some '/' then praw.dropLast else praw).contains '*' = true) :
    matchesGitIgnorePattern path d praw =
      (!((praw.getLast? == some '/') && !((path.getLast? == some '/') || d)) &&
        wildcardMatch path (if praw.getLast? == some '/' then praw.dropLast else praw)) := by
  simp only [matchesGitIgnorePattern]
  cases hdo : (praw.getLast? == some '/') with
  | false =>
    have hmem : '*' ∈ praw := by simpa [hdo] using h
    simp [hdo, hmem]
  | true =>
    have hmem : '*' ∈ praw.dropLast := by simpa [hdo] using h
    cases hdir : ((path.getLast? == some '/') || d) <;> simp [hdo, hdir, hmem]

/-- Witness for C3 (amended) at the pattern `*.log` and path `x.log`. -/
theorem c3_witness :
    matchesGitIgnorePattern "x.log".toList false "*.log".toList =
      (!(("*.log".toList.getLast? == some '/') &&
          !(("x.log".toList.getLast? == some '/') || false)) &&
        wildcardMatch "x.log".toList
          (if "*.log".toList.getLast? == some '/' then "*.log".toList.dropLast
           else "*.log".toList)) :=
  c3_amended "x.log".toList false "*.log".toList (by decide)

/-! ### C5 -/

/-- C5 counterexample: the directory-only pattern `a/` matches the path
`a/` even with `isDirectory = false` — the matcher treats any path with a
trailing slash as a directory regardless of the stat, and
`filepath.Base "a/"` strips the slash, so the basename test fires. -/
theorem c5_counterexample :
    "a/".toList.getLast? = some '/' ∧
    matchesGitIgnorePattern "a/".toList false "a/".toList = true := by
  decide

/-- C5 amended: a directory-only pattern never matches a path that does not
itself end with `/` when the stat reports a non-directory. -/
theorem c5_amended (p d : List Char)
    (hp : p.getLast? ≠ some '/') (hd : d.getLast? = some '/') :
    matchesGitIgnorePattern p false d = false := by
  simp only [matchesGitIgnorePattern]
  have h1 : (d.getLast? == some '/') = true := by simp [hd]
  have h2 : (p.getLast? == some '/') = false := by
    simpa using hp
  simp [h1, h2]

/-- Witness for C5 (amended) at the file path `a.txt` and the default
pattern `build/`. -/
theorem c5_witness :
    matchesGitIgnorePattern "a.txt".toList false "build/".toList = false :=
  c5_amended "a.txt".toList "build/".toList (by decide) (by decide)

/-! ### C4 -/

/-- `stripStars` leaves a star-free pattern untouched. -/
theorem stripStars_no_star (p : List Char) (h : '*' ∉ p) : stripStars p = (false, p) := by
  cases p with
  | nil => rfl
  | cons c rest =>
    have : ¬c = '*' := fun hc => h (hc ▸ List.mem_cons_self ..)
    simp [stripStars, this]

/-- Unfolding of `chunkScan` on a nonempty pattern. -/
theorem chunkScan_cons (b : Bool) (c : Char) (rest : List Char) :
    chunkScan b (c :: rest) =
      if c = '\\' then
        match rest with
        | [] => (['\\'], [])
        | d :: rest2 => ('\\' :: d :: (chunkScan b rest2).1, (chunkScan b rest2).2)
      else if c = '[' then (c :: (chunkScan true rest).1, (chunkScan true rest).2)
      else if c = ']' then (c :: (chunkScan false rest).1, (chunkScan false rest).2)
      else if c = '*' then
        if b then (c :: (chunkScan b rest).1, (chunkScan b rest).2)
        else ([], c :: rest)
      else (c :: (chunkScan b rest).1, (chunkScan b rest).2) := by
  rw [chunkScan.eq_def]

/-- The chunk scan consumes a star-free pattern whole. -/
theorem chunkScan_no_star :
    ∀ (b : Bool) (l : List Char), '*' ∉ l → chunkScan b l = (l, [])
  | _, [], _ => rfl
  | b, c :: rest, h => by
    have hc : ¬c = '*' := fun hc => h (hc ▸ List.mem_cons_self ..)
    have hr : '*' ∉ rest := fun hm => h (List.mem_cons_of_mem c hm)
    rw [chunkScan_cons]
    by_cases h0 : c = '\\'
    · subst h0
      cases rest with
      | nil => simp
      | cons d rest2 =>
        have hr2 : '*' ∉ rest2 := fun hm => hr (List.mem_cons_of_mem d hm)
        simp [chunkScan_no_star b rest2 hr2]
    · by_cases h1 : c = '['
      · simp [h0, h1, chunkScan_no_star true rest hr]
      · by_cases h2 : c = ']'
        · simp [h0, h1, h2, chunkScan_no_star false rest hr]
        · simp [h0, h1, h2, hc, chunkScan_no_star b rest hr]

/-- `scanChunk` of a star-free pattern is that whole pattern with no star
and no remainder. -/
theorem scanChunk_no_star (p : List Char) (h : '*' ∉ p) : scanChunk p = (false, p, []) := by
  simp [scanChunk, stripStars_no_star p h, chunkScan_no_star false p h]

/-- Once `failed` is set, `matchChunk` on a metacharacter-free chunk only
consumes the chunk and reports no match. -/
theorem matchChunk_lit_failed :
    ∀ (fuel : Nat) (q s : List Char), q.length < fuel →
      '?' ∉ q → '[' ∉ q → '\\' ∉ q →
      matchChunkF fuel q s true = some none
  | 0, _, _, hf, _, _, _ => absurd hf (by omega)
  | _ + 1, [], _, _, _, _, _ => rfl
  | fuel + 1, c :: q, s, hf, h1, h2, h3 => by
    have hc1 : ¬c = '?' := fun h => h1 (h ▸ List.mem_cons_self ..)
    have hc2 : ¬c = '[' := fun h => h2 (h ▸ List.mem_cons_self ..)
    have hc3 : ¬c = '\\' := fun h => h3 (h ▸ List.mem_cons_self ..)
    have hq1 : '?' ∉ q := fun hm => h1 (List.mem_cons_of_mem c hm)
    have hq2 : '[' ∉ q := fun hm => h2 (List.mem_cons_of_mem c hm)
    have hq3 : '\\' ∉ q := fun hm => h3 (List.mem_cons_of_mem c hm)
    simp only [matchChunkF, hc1, hc2, hc3, if_false, Bool.true_or, if_true]
    exact matchChunk_lit_failed fuel q s (by simpa using Nat.lt_of_succ_lt_succ hf) hq1 hq2 hq3

/-- On a metacharacter-free chunk, `matchChunk` is literal prefix
consumption. -/
theorem matchChunk_lit :
    ∀ (fuel : Nat) (q s : List Char), q.length < fuel →
      '?' ∉ q → '[' ∉ q → '\\' ∉ q →
      matchChunkF fuel q s false = some (litMatch q s)
  | 0, _, _, hf, _, _, _ => absurd hf (by omega)
  | _ + 1, [], s, _, _, _, _ => rfl
  | fuel + 1, c :: q, s, hf, h1, h2, h3 => by
    have hc1 : ¬c = '?' := fun h => h1 (h ▸ List.mem_cons_self ..)
    have hc2 : ¬c = '[' := fun h => h2 (h ▸ List.mem_cons_self ..)
    have hc3 : ¬c = '\\' := fun h => h3 (h ▸ List.mem_cons_self ..)
    have hq1 : '?' ∉ q := fun hm => h1 (List.mem_cons_of_mem c hm)
    have hq2 : '[' ∉ q := fun hm => h2 (List.mem_cons_of_mem c hm)
    have hq3 : '\\' ∉ q := fun hm => h3 (List.mem_cons_of_mem c hm)
    have hlt : q.length < fuel := by simpa using Nat.lt_of_succ_lt_succ hf
    cases s with
    | nil =>
      simp only [matchChunkF, hc1, hc2, hc3, if_false, List.isEmpty_nil, Bool.false_or,
        if_true, litMatch]
      exact matchChunk_lit_failed fuel q [] hlt hq1 hq2 hq3
    | cons e s' =>
      simp only [matchChunkF, hc1, hc2, hc3, if_false, List.isEmpty_cons, Bool.false_or,
        Bool.false_eq_true, litMatch]
      by_cases hce : c = e
      · subst hce
        simp only [BEq.refl, Bool.not_true, if_pos rfl]
        exact matchChunk_lit fuel q s' hlt hq1 hq2 hq3
      · have hbe : (c == e) = false := by simpa using hce
        simp only [hbe, Bool.not_false, if_neg hce]
        exact matchChunk_lit_failed fuel q s' hlt hq1 hq2 hq3

/-- List equality is literal matching with an empty remainder. -/
theorem beq_eq_litMatch :
    ∀ q p : List Char, (q == p) = (litMatch q p == some ([] : List Char))
  | [], p => by cases p <;> rfl
  | c :: q, [] => rfl
  | c :: q, d :: p => by
    by_cases hcd : c = d
    · subst hcd
      simpa [litMatch, List.cons_beq_cons] using beq_eq_litMatch q p
    · have : (c == d) = false := by simpa using hcd
      simp [litMatch, List.cons_beq_cons, this, hcd]

/-- `goMatchF` with positive fuel on an exhausted pattern. -/
theorem goMatchF_nil (fuel : Nat) (name : List Char) (h : 0 < fuel) :
    goMatchF fuel [] name = some name.isEmpty := by
  cases fuel with
  | zero => omega
  | succ f => rfl

/-- On a pattern containing no glob metacharacter at all, Go `Match` is the
equality test. -/
theorem goMatch_lit (q p : List Char)
    (h0 : '*' ∉ q) (h1 : '?' ∉ q) (h2 : '[' ∉ q) (h3 : '\\' ∉ q) :
    goMatch q p = some (q == p) := by
  unfold goMatch
  cases q with
  | nil => cases p <;> rfl
  | cons c q' =>
    simp only [goMatchF]
    rw [scanChunk_no_star (c :: q') h0]
    simp only [List.isEmpty_cons, Bool.false_and, Bool.and_false, Bool.false_eq_true,
      if_false]
    rw [matchChunk_lit ((c :: q').length + 1) (c :: q') p (by omega) h1 h2 h3]
    cases hlm : litMatch (c :: q') p with
    | none =>
      have : ((c :: q') == p) = false := by rw [beq_eq_litMatch, hlm]; rfl
      simp [this]
    | some t =>
      cases t with
      | nil =>
        have hb : ((c :: q') == p) = true := by rw [beq_eq_litMatch, hlm]; rfl
        simp only [List.isEmpty_nil, List.isEmpty_cons, Bool.not_true, Bool.or_false,
          Bool.true_or, if_true, hb]
        rw [goMatchF_nil _ [] (by simp only [List.length_cons]; omega)]
        rfl
      | cons x xs =>
        have hb : ((c :: q') == p) = false := by rw [beq_eq_litMatch, hlm]; rfl
        simp [hb]

/-- C4 counterexample: the pattern `[a]` contains neither `*` nor `?`, yet
it matches the path `a` although it equals neither the basename of `a` nor
`a` itself — the non-wildcard branch ends with a full `filepath.Match`
test, which gives `[a]` its character-class meaning. -/
theorem c4_counterexample :
    "[a]".toList.contains '*' = false ∧
    "[a]".toList.contains '?' = false ∧
    matchesGitIgnorePattern "a".toList false "[a]".toList = true ∧
    "[a]".toList ≠ goBase "a".toList ∧
    "[a]".toList ≠ "a".toList := by
  decide

/-- C4 amended: for a pattern containing no glob metacharacter (`*`, `?`,
`[`, `\`) and not ending in `/`, the matcher is exactly the claimed
two-way test — the pattern equals `filepath.Base` of the path or equals the
path; patterns containing `[` or `\` can match more, through the final
`filepath.Match` call. -/
theorem c4_amended (p : List Char) (d : Bool) (q : List Char)
    (h0 : '*' ∉ q) (h1 : '?' ∉ q) (h2 : '[' ∉ q) (h3 : '\\' ∉ q)
    (h4 : q.getLast? ≠ some '/') :
    matchesGitIgnorePattern p d q = (q == goBase p || q == p) := by
  simp only [matchesGitIgnorePattern]
  have hdo : (q.getLast? == some '/') = false := by simpa using h4
  have hcon : q.contains '*' = false := by simpa using h0
  simp only [hdo, Bool.false_and, Bool.false_eq_true, if_false, hcon]
  rw [goMatch_lit q p h0 h1 h2 h3]
  cases hqp : (q == p) <;> simp [hqp]

/-- Witness for C4 (amended) at the literal pattern `a.txt` and the path
`dir/a.txt` (a basename match). -/
theorem c4_witness :
    matchesGitIgnorePattern "dir/a.txt".toList false "a.txt".toList =
      ("a.txt".toList == goBase "dir/a.txt".toList || "a.txt".toList == "dir/a.txt".toList) :=
  c4_amended "dir/a.txt".toList false "a.txt".toList
    (by decide) (by decide) (by decide) (by decide) (by decide)

/-! ### C6 -/

/-- A signature of length at least two is a prefix only of contents of
length at least two. -/
theorem sigMatches_two :
    ∀ (sig b : List Nat), 2 ≤ sig.length → sigMatches sig b = true → 2 ≤ b.length
  | [], _, hl, _ => by simp at hl
  | [_], _, hl, _ => by simp at hl
  | _ :: _ :: _, [], _, hs => by simp [sigMatches] at hs
  | a :: a' :: sig', [x], _, hs => by
    simp [sigMatches] at hs
  | _ :: _ :: _, _ :: _ :: _, _, _ => by simp

/-- A matching built-in signature forces at least two bytes of content, so
the `len(content) >= 2` guard in `isBinaryContent` is redundant. -/
theorem hasSig_two (b : List Nat) (h : hasBinarySignature b = true) : 2 ≤ b.length := by
  unfold hasBinarySignature at h
  rw [List.any_eq_true] at h
  obtain ⟨sig, hmem, hsig⟩ := h
  have hl : 2 ≤ sig.length := by fin_cases hmem <;> decide
  exact sigMatches_two sig b hl hsig

/-- The counting loop computes the two counts and applies the early-exit
zero rule and the 30% rule. -/
theorem nullScan_eq :
    ∀ (bytes : List Nat) (nc na total : Nat), nc ≤ 1 →
      nullScan bytes nc na total =
        (decide (2 ≤ nc + countZeroBytes bytes) ||
          (decide (0 < total) &&
            decide (3 * total < 10 * (na + countHighBytes bytes))))
  | [], nc, na, total, hnc => by
    have h2 : ¬(2 ≤ nc + countZeroBytes []) := by
      simp [countZeroBytes]
      omega
    simp only [nullScan, countZeroBytes, countHighBytes, List.countP_nil, Nat.add_zero,
      decide_eq_false h2, Bool.false_or]
    by_cases ht : 0 < total <;> simp [ht] <;> omega
  | b :: rest, nc, na, total, hnc => by
    by_cases hb0 : b = 0
    · subst hb0
      have hcz : countZeroBytes (0 :: rest) = countZeroBytes rest + 1 := by
        simp [countZeroBytes, List.countP_cons]
      have hch : countHighBytes (0 :: rest) = countHighBytes rest := by
        simp [countHighBytes, List.countP_cons]
      rw [hcz, hch]
      simp only [nullScan, if_pos rfl]
      by_cases hnc1 : nc = 1
      · subst hnc1
        rw [if_pos (by omega : (1 : Nat) < 1 + 1)]
        have h2 : 2 ≤ 1 + (countZeroBytes rest + 1) := by omega
        simp [h2]
      · have hnc0 : nc = 0 := by omega
        subst hnc0
        rw [if_neg (by omega : ¬((1 : Nat) < 0 + 1))]
        rw [nullScan_eq rest (0 + 1) na total (by omega)]
        have e1 : 0 + 1 + countZeroBytes rest = 0 + (countZeroBytes rest + 1) := by omega
        rw [e1]
        simp
    · by_cases hb127 : 127 < b
      · have hcz : countZeroBytes (b :: rest) = countZeroBytes rest := by
          simp [countZeroBytes, List.countP_cons, hb0]
        have hch : countHighBytes (b :: rest) = countHighBytes rest + 1 := by
          simp [countHighBytes, List.countP_cons, hb127]
        rw [hcz, hch]
        simp only [nullScan, if_neg hb0, if_pos hb127]
        rw [nullScan_eq rest nc (na + 1) total hnc]
        have e1 : na + 1 + countHighBytes rest = na + (countHighBytes rest + 1) := by omega
        rw [e1]
      · have hcz : countZeroBytes (b :: rest) = countZeroBytes rest := by
          simp [countZeroBytes, List.countP_cons, hb0]
        have hch : countHighBytes (b :: rest) = countHighBytes rest := by
          simp [countHighBytes, List.countP_cons, hb127]
        rw [hcz, hch]
        simp only [nullScan, if_neg hb0, if_neg hb127]
        exact nullScan_eq rest nc na total hnc

/-- C6 counterexample: `%PDF` followed by a single zero byte is printable
ASCII apart from that one zero, yet it classifies as binary — the claim's
"in particular" clause contradicts its own signature rule, which fires on
the printable PDF magic. -/
theorem c6_counterexample :
    ([37, 80, 68, 70, 0] : List Nat).length ≤ 512 ∧
    countZeroBytes [37, 80, 68, 70, 0] = 1 ∧
    (∀ x ∈ ([37, 80, 68, 70, 0] : List Nat), x = 0 ∨ (32 ≤ x ∧ x ≤ 126)) ∧
    isBinaryContent [37, 80, 68, 70, 0] = true := by
  decide

/-- C6 amended: on at most 512 bytes the classifier reports binary exactly
when a signature is a prefix, or at least two zero bytes occur, or the
content is nonempty with more than 30% of its bytes above 127; the empty
sequence and any sequence of bytes at most 127 with at most one zero byte
that does not begin with a signature are text-eligible. -/
theorem c6_amended (b : List Nat) (hlen : b.length ≤ 512) :
    (isBinaryContent b =
      (hasBinarySignature b || decide (2 ≤ countZeroBytes b) ||
        (!b.isEmpty && decide (3 * b.length < 10 * countHighBytes b)))) ∧
    (hasBinarySignature b = false → countZeroBytes b ≤ 1 →
      (∀ x ∈ b, x ≤ 127) → isBinaryContent b = false) := by
  have hmain : isBinaryContent b =
      (hasBinarySignature b || decide (2 ≤ countZeroBytes b) ||
        (!b.isEmpty && decide (3 * b.length < 10 * countHighBytes b))) := by
    by_cases hs : hasBinarySignature b = true
    · have hl2 : 2 ≤ b.length := hasSig_two b hs
      unfold isBinaryContent
      rw [show binarySignatures.any (fun sig => sigMatches sig b) = true from hs]
      simp [hl2, hs]
    · have hs' : hasBinarySignature b = false := by
        cases h : hasBinarySignature b
        · rfl
        · exact absurd h hs
      unfold isBinaryContent
      rw [show binarySignatures.any (fun sig => sigMatches sig b) = false from hs']
      rw [nullScan_eq b 0 0 b.length (by omega)]
      have hie : (!b.isEmpty) = decide (0 < b.length) := by cases b <;> simp
      simp [hs', hie]
  refine ⟨hmain, fun hsig hcz h127 => ?_⟩
  have hch : countHighBytes b = 0 := by
    unfold countHighBytes
    rw [List.countP_eq_zero]
    intro a ha
    have := h127 a ha
    simp
    omega
  rw [hmain, hsig, hch]
  have h1 : ¬(2 ≤ countZeroBytes b) := by omega
  have h2 : ¬(3 * b.length < 10 * 0) := by omega
  simp [h1, h2]

/-- Witness for C6 (amended) at a three-byte ASCII content with one zero
byte: the classifier reports text-eligible. -/
theorem c6_witness : isBinaryContent [104, 0, 105] = false :=
  (c6_amended [104, 0, 105] (by decide)).2 (by decide) (by decide) (by decide)

/-! ### C7 -/

/-- C7: `isTextFile` always returns exactly what `verifyTextContent`
returns — the extension lookup selects between two identical branches — and
in particular content starting with the PNG signature `89 50 4E 47`
classifies as binary for every file name (hence every extension), errors
included. -/
theorem c7_extension_plays_no_role (path : List Char) (r : Option (List Nat)) (rest : List Nat) :
    isTextFile path r = verifyTextContent r ∧
    isTextFile path (some (0x89 :: 0x50 :: 0x4E :: 0x47 :: rest)) = some false := by
  constructor
  · simp [isTextFile]
  · have hid : isTextFile path (some (0x89 :: 0x50 :: 0x4E :: 0x47 :: rest)) =
        verifyTextContent (some (0x89 :: 0x50 :: 0x4E :: 0x47 :: rest)) := by
      simp [isTextFile]
    rw [hid]
    have htake : (0x89 :: 0x50 :: 0x4E :: 0x47 :: rest).take 512 =
        0x89 :: 0x50 :: 0x4E :: 0x47 :: rest.take 508 := rfl
    show some (!isBinaryContent ((0x89 :: 0x50 :: 0x4E :: 0x47 :: rest).take 512)) = some false
    rw [htake]
    have hsig : sigMatches [0x89, 0x50, 0x4E, 0x47]
        (0x89 :: 0x50 :: 0x4E :: 0x47 :: rest.take 508) = true := by
      simp [sigMatches]
    have hguard : (2 ≤ (0x89 :: 0x50 :: 0x4E :: 0x47 :: rest.take 508).length &&
        binarySignatures.any
          (fun sig => sigMatches sig (0x89 :: 0x50 :: 0x4E :: 0x47 :: rest.take 508))) = true := by
      have h2 : 2 ≤ (0x89 :: 0x50 :: 0x4E :: 0x47 :: rest.take 508).length := by
        simp
      have hany : binarySignatures.any
          (fun sig => sigMatches sig (0x89 :: 0x50 :: 0x4E :: 0x47 :: rest.take 508)) = true := by
        rw [List.any_eq_true]
        exact ⟨[0x89, 0x50, 0x4E, 0x47], by decide, hsig⟩
      simp [h2, hany]
    unfold isBinaryContent
    rw [hguard]
    rfl

/-! ### C8 -/

/-- The `.pewc` line loop is the trim-then-filter pipeline, in file
order. -/
theorem parsePewc_eq (ls : List (List Char)) :
    parsePewcLines ls =
      (ls.map goTrimSpace).filter fun l => !(l.isEmpty || l.head? == some '#') := by
  induction ls with
  | nil => rfl
  | cons line rest ih =>
    simp only [parsePewcLines, List.map_cons, List.filter_cons]
    cases h : ((goTrimSpace line).isEmpty || ((goTrimSpace line).head? == some '#')) <;>
      simp [h, ih]

/-- C8: the resolved ignore set is the built-in list in order (empty when
defaults are disabled) followed by exactly the trimmed, comment- and
blank-free lines of `.pewc` in file order; an absent `.pewc` contributes
nothing and is no error, an unreadable one is an error. -/
theorem c8_resolved_ignore_set (noDefaultIgnores : Bool) (content : List Char) :
    getIgnorePatterns noDefaultIgnores .absent =
      some (if noDefaultIgnores then [] else defaultIgnorePatterns) ∧
    getIgnorePatterns noDefaultIgnores .unreadable = none ∧
    getIgnorePatterns noDefaultIgnores (.present content) =
      some ((if noDefaultIgnores then [] else defaultIgnorePatterns) ++
        ((splitLines content).map goTrimSpace).filter
          fun l => !(l.isEmpty || l.head? == some '#')) := by
  refine ⟨?_, rfl, ?_⟩
  · cases noDefaultIgnores <;> simp [getIgnorePatterns, readPewcFile]
  · simp [getIgnorePatterns, readPewcFile, parsePewc_eq]

/-! ### C9 -/

/-- C9: a path is ignored iff some pattern in the list matches it; the
empty list ignores nothing; and the verdict is invariant under any
permutation of the pattern list. -/
theorem c9_ignored_iff_any (rel : List Char) (d : Bool) (pats : List (List Char)) :
    (isPathIgnored rel d pats = true ↔
      ∃ q ∈ pats, matchesGitIgnorePattern rel d q = true) ∧
    isPathIgnored rel d [] = false ∧
    (∀ pats' : List (List Char), pats.Perm pats' →
      isPathIgnored rel d pats = isPathIgnored rel d pats') := by
  refine ⟨?_, rfl, ?_⟩
  · rw [isPathIgnored_eq_any]
    exact List.any_eq_true
  · intro pats' hperm
    rw [isPathIgnored_eq_any, isPathIgnored_eq_any]
    have hiff : (pats.any fun q => matchesGitIgnorePattern rel d q) = true ↔
        (pats'.any fun q => matchesGitIgnorePattern rel d q) = true := by
      simp only [List.any_eq_true]
      constructor
      · rintro ⟨x, hx, hpx⟩
        exact ⟨x, hperm.mem_iff.mp hx, hpx⟩
      · rintro ⟨x, hx, hpx⟩
        exact ⟨x, hperm.mem_iff.mpr hx, hpx⟩
    cases h1 : (pats.any fun q => matchesGitIgnorePattern rel d q) <;>
      cases h2 : (pats'.any fun q => matchesGitIgnorePattern rel d q) <;>
      simp_all

/-- Witness for C9: the permutation clause applied to a two-pattern list
and its swap. -/
theorem c9_witness :
    isPathIgnored ".git".toList true [".git/".toList, "*.log".toList] =
      isPathIgnored ".git".toList true ["*.log".toList, ".git/".toList] :=
  (c9_ignored_iff_any ".git".toList true [".git/".toList, "*.log".toList]).2.2
    ["*.log".toList, ".git/".toList] (List.Perm.swap _ _ _)

/-! ### C10 -/

mutual

/-- When every directory listing in the tree is readable, the traversal
succeeds and collects exactly the eligible files — in particular per-file
read failures (`readResult = none`) only drop the affected file. -/
theorem walkEntry_ok (pats : List (List Char)) :
    ∀ (e : FsEntry) (rel : List Char), allDirsReadable e = true →
      walkEntry pats rel e = Except.ok (eligEntry pats rel e)
  | .file _ r, rel, _ => by
    cases hig : isPathIgnored rel false pats
    · cases r with
      | none => simp [walkEntry, eligEntry, hig]
      | some bytes =>
        cases hb : isBinaryContent (bytes.take 512) <;>
          simp [walkEntry, eligEntry, hig, hb]
    · simp [walkEntry, eligEntry, hig]
  | .dir _ rd cs, rel, h => by
    have hr : rd = true ∧ allDirsList cs = true := by
      simpa [allDirsReadable] using h
    obtain ⟨hrd, hcs⟩ := hr
    subst hrd
    cases hig : isPathIgnored rel true pats
    · simp [walkEntry, eligEntry, hig, walkList_ok pats cs rel hcs]
    · simp [walkEntry, eligEntry, hig]

/-- `walkEntry_ok` over the children of a directory. -/
theorem walkList_ok (pats : List (List Char)) :
    ∀ (es : List FsEntry) (rel : List Char), allDirsList es = true →
      walkList pats rel es = Except.ok (eligList pats rel es)
  | [], _, _ => rfl
  | c :: rest, rel, h => by
    have h1 : allDirsReadable c = true ∧ allDirsList rest = true := by
      simpa [allDirsList] using h
    simp [walkList, eligList, walkEntry_ok pats c (joinRel rel c.name) h1.1,
      walkList_ok pats rest rel h1.2]

end

/-- C10 counterexample: a tree whose root directory is readable but whose
non-root subdirectory `sub` has an unreadable listing makes the whole
traversal fail — the walk callback returns the incoming listing error — so
the overall result can fail without any root-level failure. -/
theorem c10_counterexample :
    collectTextFiles []
      (FsEntry.dir "proj".toList true
        [FsEntry.dir "sub".toList false [], FsEntry.file "a.md".toList (some [104])]) =
      Except.error () := rfl

/-- C10 amended: when every directory listing in the tree (root and
non-root alike) is readable, the traversal returns successfully with
exactly the eligible files, sorted; per-file open/read failures during
classification are skipped and never abort.  (Without the readable-listing
condition the traversal can fail on non-root directories, see the
counterexample.) -/
theorem c10_amended (pats : List (List Char)) (root : FsEntry)
    (h : allDirsReadable root = true) :
    collectTextFiles pats root = Except.ok (sortStrs (eligEntry pats ['.'] root)) := by
  unfold collectTextFiles
  rw [walkEntry_ok pats root ['.'] h]

/-- Witness for C10 (amended) at a readable tree containing one unreadable
file and one good file: the traversal succeeds and keeps only the good
file. -/
theorem c10_witness : collectTextFiles [] sampleTree = Except.ok ["ok.md".toList] := by
  have h := c10_amended [] sampleTree (by rfl)
  rw [h]
  rfl

end Pew
